import Mathlib

/-!
Verification of the reporting and commission-calculation engine of the
barbershop finance module (`barbearia/financemodule.py`).

Monetary amounts are modelled as rationals (`ℚ`): the source uses binary
floating point with no rounding during accumulation, and every claim under
study is about the exact arithmetic structure of the computation, not about
floating-point rounding.  Timestamps are modelled as naive calendar
date-times, exactly as the source treats them.  The SQLite record store is
modelled as a value holding the four tables as lists in rowid (insertion)
order, which is the order a full-table scan enumerates.

The ISO-calendar computation used by `_in_period` for weekly matching is the
`date.isocalendar` algorithm of the Python standard library (an external
collaborator of the module), embedded here from its reference implementation:
proleptic-Gregorian day ordinals, `_isoweek1monday`, and the week/year
adjustment branches.  Division on `ℤ` in Lean is Euclidean division, which
agrees with Python's floor division whenever the divisor is positive, as it
always is below (the divisor is 7).
-/

namespace Barbearia

/-- Gregorian leap-year test (`year % 4 == 0 and (year % 100 != 0 or year % 400 == 0)`). -/
def isLeap (y : ℕ) : Bool :=
  y % 4 == 0 && (y % 100 != 0 || y % 400 == 0)

/-- Days in a month of a given year (`_days_in_month`). -/
def daysInMonth (y m : ℕ) : ℕ :=
  match m with
  | 2 => if isLeap y then 29 else 28
  | 4 | 6 | 9 | 11 => 30
  | _ => 31

/-- Days in year `y` before the first day of month `m`
(`_days_before_month`: the cumulative table plus the leap correction
for months after February). -/
def daysBeforeMonth (y m : ℕ) : ℕ :=
  let leap := if isLeap y then 1 else 0
  match m with
  | 1 => 0
  | 2 => 31
  | 3 => 59 + leap
  | 4 => 90 + leap
  | 5 => 120 + leap
  | 6 => 151 + leap
  | 7 => 181 + leap
  | 8 => 212 + leap
  | 9 => 243 + leap
  | 10 => 273 + leap
  | 11 => 304 + leap
  | _ => 334 + leap

/-- Number of days before January 1 of year `y` (`_days_before_year`). -/
def daysBeforeYear (y : ℕ) : ℕ :=
  (y - 1) * 365 + (y - 1) / 4 - (y - 1) / 100 + (y - 1) / 400

/-- Proleptic Gregorian ordinal of a date; January 1 of year 1 is day 1
(`_ymd2ord`). -/
def ymd2ord (y m d : ℕ) : ℕ :=
  daysBeforeYear y + daysBeforeMonth y m + d

/-- The triple `(y, m, d)` denotes an actual calendar date (year at least 1,
as in Python's `datetime.MINYEAR`). -/
def validYmd (y m d : ℕ) : Prop :=
  1 ≤ y ∧ 1 ≤ m ∧ m ≤ 12 ∧ 1 ≤ d ∧ d ≤ daysInMonth y m

instance (y m d : ℕ) : Decidable (validYmd y m d) := by
  unfold validYmd; infer_instance

/-- Ordinal of the Monday starting ISO week 1 of year `y`
(`_isoweek1monday`). -/
def isoweek1monday (y : ℕ) : ℤ :=
  let firstday : ℤ := ymd2ord y 1 1
  let firstweekday : ℤ := (firstday + 6) % 7
  let week1monday := firstday - firstweekday
  if firstweekday > 3 then week1monday + 7 else week1monday

/-- ISO calendar triple `(iso_year, iso_week, iso_weekday)` of a date
(`date.isocalendar`).  Divisor 7 is positive, so `ℤ` division and remainder
coincide with Python's `divmod`. -/
def isocalendar (y m d : ℕ) : ℤ × ℤ × ℤ :=
  let today : ℤ := ymd2ord y m d
  let week1monday := isoweek1monday y
  let week := (today - week1monday) / 7
  let day := (today - week1monday) % 7
  if week < 0 then
    let week1monday1 := isoweek1monday (y - 1)
    ((y : ℤ) - 1, (today - week1monday1) / 7 + 1, (today - week1monday1) % 7 + 1)
  else if 52 ≤ week ∧ isoweek1monday (y + 1) ≤ today then
    ((y : ℤ) + 1, 1, day + 1)
  else
    ((y : ℤ), week + 1, day + 1)

/-- Modelled from the spec: the ordinal of the Monday on or before day
ordinal `o` — the start of the Monday-based (ISO-8601) week containing `o`.
Ordinal 1 (January 1 of year 1) is a Monday, so `(o + 6) % 7` is the
Monday-based weekday index. -/
def mondayOnOrBefore (o : ℕ) : ℤ :=
  (o : ℤ) - (((o : ℤ) + 6) % 7)

/-- A calendar date: year, month, day. -/
structure Date where
  year : ℕ
  month : ℕ
  day : ℕ
deriving DecidableEq, Repr

/-- A naive date-time, as the source stores and parses (`datetime`). -/
structure DateTime where
  year : ℕ
  month : ℕ
  day : ℕ
  hour : ℕ
  minute : ℕ
  second : ℕ
deriving DecidableEq, Repr

/-- `datetime.date()`: the date portion of a date-time. -/
def DateTime.date (ts : DateTime) : Date :=
  ⟨ts.year, ts.month, ts.day⟩

/-- `date.isocalendar` applied to a `Date`. -/
def Date.iso (d : Date) : ℤ × ℤ × ℤ :=
  isocalendar d.year d.month d.day

/-- Modelled from the spec: two dates fall in the same ISO-8601 week
(same ISO year and ISO week number) iff they share the same week-starting
Monday — ISO weeks run Monday through Sunday, and each ISO week is labelled
by a unique (year, number) pair, so label equality is Monday equality. -/
def sameISOWeek (a b : Date) : Prop :=
  mondayOnOrBefore (ymd2ord a.year a.month a.day)
    = mondayOnOrBefore (ymd2ord b.year b.month b.day)

instance (a b : Date) : Decidable (sameISOWeek a b) := by
  unfold sameISOWeek; infer_instance

/-- The two error conditions the engine can signal:
`ValueError('period must be daily, weekly or monthly')` from `_in_period`
and the HTTP 400 rejection from `create_transaction`. -/
inductive FinanceError where
  | invalidArgument (msg : String)
  | notFound (msg : String)
deriving DecidableEq, Repr

instance {e a : Type} [DecidableEq e] [DecidableEq a] : DecidableEq (Except e a) :=
  fun x y =>
    match x, y with
    | .ok u, .ok v => if h : u = v then isTrue (by rw [h]) else isFalse (by simp [h])
    | .error u, .error v => if h : u = v then isTrue (by rw [h]) else isFalse (by simp [h])
    | .ok _, .error _ => isFalse (by simp)
    | .error _, .ok _ => isFalse (by simp)

@[simp] theorem okBind {ε α β : Type} (x : α) (f : α → Except ε β) :
    (Except.ok x >>= f) = f x := rfl

@[simp] theorem errorBind {ε α β : Type} (e : ε) (f : α → Except ε β) :
    (Except.error e >>= f : Except ε β) = Except.error e := rfl

@[simp] theorem mapOkEq {ε α β : Type} (f : α → β) (x : α) :
    (f <$> (Except.ok x : Except ε α)) = Except.ok (f x) := rfl

@[simp] theorem mapErrorEq {ε α β : Type} (f : α → β) (e : ε) :
    (f <$> (Except.error e : Except ε α)) = (Except.error e : Except ε β) := rfl

@[simp] theorem pureEqOk {ε α : Type} (x : α) :
    (pure x : Except ε α) = Except.ok x := rfl

/-- `_in_period(ts, period, reference_date)`: the Period Classifier.
`weekly` compares `isocalendar()[:2]`, i.e. the (ISO year, ISO week) pair. -/
def in_period (ts : DateTime) (period : String) (reference_date : Date) :
    Except FinanceError Bool :=
  if period = "daily" then
    .ok (decide (ts.date = reference_date))
  else if period = "weekly" then
    .ok (decide (ts.date.iso.1 = reference_date.iso.1 ∧
                 ts.date.iso.2.1 = reference_date.iso.2.1))
  else if period = "monthly" then
    .ok (decide (ts.year = reference_date.year ∧ ts.month = reference_date.month))
  else
    .error (.invalidArgument "period must be daily, weekly or monthly")

/-- A row of the `barbers` table. -/
structure Barber where
  id : ℕ
  name : String
  commission_type : Option String
  commission_value : Option ℚ
deriving DecidableEq, Repr

/-- A row of the `services` table. -/
structure Service where
  id : ℕ
  name : String
  base_price : ℚ
deriving DecidableEq, Repr

/-- A row of the `transactions` table (price is always present at rest:
`create_transaction` resolves it before inserting). -/
structure Transaction where
  id : ℕ
  barber_id : ℕ
  service_id : ℕ
  price : ℚ
  payment_method : Option String
  timestamp : DateTime
  note : Option String
deriving DecidableEq, Repr

/-- A row of the `expenses` table. -/
structure Expense where
  id : ℕ
  description : String
  category : Option String
  amount : ℚ
  timestamp : DateTime
deriving DecidableEq, Repr

/-- The SQLite record store: the four tables, each in rowid order
(the order of a full-table scan). -/
structure Store where
  barbers : List Barber
  services : List Service
  transactions : List Transaction
  expenses : List Expense
deriving DecidableEq, Repr

/-- The filtering loop of `_load_transactions_for_period`: evaluate the
classifier on each stored row in scan order, keep the matching rows, and
propagate the classifier's error from the first row it is asked about. -/
def filterTransactions (period : String) (reference_date : Date) :
    List Transaction → Except FinanceError (List Transaction)
  | [] => .ok []
  | t :: ts => do
    let b ← in_period t.timestamp period reference_date
    let rest ← filterTransactions period reference_date ts
    pure (if b then t :: rest else rest)

/-- The filtering loop of `_load_expenses_for_period`. -/
def filterExpenses (period : String) (reference_date : Date) :
    List Expense → Except FinanceError (List Expense)
  | [] => .ok []
  | e :: es => do
    let b ← in_period e.timestamp period reference_date
    let rest ← filterExpenses period reference_date es
    pure (if b then e :: rest else rest)

/-- `_load_transactions_for_period`: full scan of the transactions table,
retaining the rows the Period Classifier accepts. -/
def load_transactions_for_period (s : Store) (period : String)
    (reference_date : Date) : Except FinanceError (List Transaction) :=
  filterTransactions period reference_date s.transactions

/-- `_load_expenses_for_period`: full scan of the expenses table,
retaining the rows the Period Classifier accepts. -/
def load_expenses_for_period (s : Store) (period : String)
    (reference_date : Date) : Except FinanceError (List Expense) :=
  filterExpenses period reference_date s.expenses

/-- `barber_settings.get(bid, (None, None))`: commission settings of
barber `bid`.  The settings dict is built by a comprehension over the
scan of the `barbers` table, so on duplicate ids the last row wins. -/
def barberSetting (barbers : List Barber) (bid : ℕ) : Option String × Option ℚ :=
  match barbers.reverse.find? (fun b => b.id == bid) with
  | some b => (b.commission_type, b.commission_value)
  | none => (none, none)

/-- The amount one transaction contributes to its barber's commission:
the three-branch policy resolution in the loop body of
`_calculate_commissions`. -/
def commissionFor (barbers : List Barber) (default_percent : ℚ)
    (t : Transaction) : ℚ :=
  let setting := barberSetting barbers t.barber_id
  if setting.1 = some "percent" ∧ setting.2.isSome then
    t.price * (setting.2.getD 0 / 100)
  else if setting.1 = some "fixed" ∧ setting.2.isSome then
    setting.2.getD 0
  else
    t.price * (default_percent / 100)

/-- `m[k] += v` on an insertion-ordered mapping (the behaviour of
`defaultdict` accumulation followed by `dict(...)`): update the entry in
place if the key is present, append it otherwise. -/
def addTo {β : Type} [Add β] (m : List (ℕ × β)) (k : ℕ) (v : β) : List (ℕ × β) :=
  match m with
  | [] => [(k, v)]
  | (k', v') :: rest =>
    if k' = k then (k', v' + v) :: rest else (k', v') :: addTo rest k v

/-- Sum of the values of an insertion-ordered mapping. -/
def sumValues (m : List (ℕ × ℚ)) : ℚ :=
  (m.map Prod.snd).sum

/-- `_calculate_commissions(transactions, default_percent=30.0)`:
fold the per-transaction commission contributions into a
`defaultdict(float)` keyed by barber id. -/
def calculate_commissions (barbers : List Barber)
    (transactions : List Transaction) (default_percent : ℚ := 30) :
    List (ℕ × ℚ) :=
  transactions.foldl
    (fun m t => addTo m t.barber_id (commissionFor barbers default_percent t)) []

/-- The aggregated report returned by `get_report` (`reference_date` is kept
as a date; the source stringifies it on the way out). -/
structure Report where
  period : String
  reference_date : Date
  counts_by_barber : List (ℕ × ℕ)
  totals_by_barber : List (ℕ × ℚ)
  totals_by_service : List (ℕ × ℚ)
  total_revenue : ℚ
  total_expenses : ℚ
  net_profit : ℚ
  commissions_due : List (ℕ × ℚ)
  transactions : List Transaction
  expenses : List Expense
deriving DecidableEq, Repr

/-- The single aggregation loop of `get_report`: running
`(counts, totals, totals_by_service, total_revenue)` state. -/
def aggStep (a : List (ℕ × ℕ) × List (ℕ × ℚ) × List (ℕ × ℚ) × ℚ)
    (t : Transaction) : List (ℕ × ℕ) × List (ℕ × ℚ) × List (ℕ × ℚ) × ℚ :=
  (addTo a.1 t.barber_id 1,
   addTo a.2.1 t.barber_id t.price,
   addTo a.2.2.1 t.service_id t.price,
   a.2.2.2 + t.price)

/-- `get_report(period, reference_date)`: the Report Aggregator. -/
def get_report (s : Store) (period : String) (reference_date : Date) :
    Except FinanceError Report := do
  let txs ← load_transactions_for_period s period reference_date
  let exps ← load_expenses_for_period s period reference_date
  let agg := txs.foldl aggStep ([], [], [], 0)
  let total_expenses := exps.foldl (fun acc e => acc + e.amount) 0
  let net_profit := agg.2.2.2 - total_expenses
  let commissions_due := calculate_commissions s.barbers txs
  pure { period := period
         reference_date := reference_date
         counts_by_barber := agg.1
         totals_by_barber := agg.2.1
         totals_by_service := agg.2.2.1
         total_revenue := agg.2.2.2
         total_expenses := total_expenses
         net_profit := net_profit
         commissions_due := commissions_due
         transactions := txs
         expenses := exps }

/-- The request body of `POST /transactions` (`TransactionIn`); the
`payment_method` default `'cash'` is applied by the request parser before
this value is seen. -/
structure TransactionIn where
  barber_id : ℕ
  service_id : ℕ
  price : Option ℚ
  payment_method : Option String
  timestamp : Option DateTime
  note : Option String
deriving DecidableEq, Repr

/-- `create_transaction(t)`: resolve the price (falling back to the
referenced service's base price, rejecting when that service is missing),
then insert the row.  `now` stands for `datetime.now()`; the generated id
models `AUTOINCREMENT`.  Returns the updated store and the new row id. -/
def create_transaction (s : Store) (t : TransactionIn) (now : DateTime) :
    Except FinanceError (Store × ℕ) := do
  let ts := t.timestamp.getD now
  let price ← match t.price with
    | some p => pure p
    | none =>
      match s.services.find? (fun svc => svc.id == t.service_id) with
      | some svc => pure svc.base_price
      | none => .error (.notFound "service_id not found and no price provided")
  let tid := s.transactions.length + 1
  let row : Transaction :=
    { id := tid, barber_id := t.barber_id, service_id := t.service_id
      price := price, payment_method := t.payment_method
      timestamp := ts, note := t.note }
  pure ({ s with transactions := s.transactions ++ [row] }, tid)

/-- Modelled from the spec (§4.3, design note §9): a barber's commission
policy as a tagged variant — `percent`, `fixed`, or no policy. -/
inductive CommissionPolicy where
  | percent (value : ℚ)
  | fixed (value : ℚ)
  | nopolicy
deriving DecidableEq, Repr

/-- Modelled from the spec (§4.3): resolve the owning barber's policy by id
lookup; no barber record, absent kind, unknown kind, or missing value all
yield `nopolicy`. -/
def specPolicyOf (barbers : List Barber) (bid : ℕ) : CommissionPolicy :=
  match barberSetting barbers bid with
  | (some k, some v) =>
    if k = "percent" then .percent v
    else if k = "fixed" then .fixed v
    else .nopolicy
  | _ => .nopolicy

/-- Modelled from the spec (§4.3): the per-transaction commission amount
under a resolved policy — percent of price, flat amount, or the default
percentage fallback. -/
def specCommissionAmount (p : CommissionPolicy) (price default_percent : ℚ) : ℚ :=
  match p with
  | .percent v => price * (v / 100)
  | .fixed v => v
  | .nopolicy => price * (default_percent / 100)

/-- A sample store used to instantiate the theorems: the worked scenario of
spec §8 (barber 1 on 20 percent, barber 2 without a policy, transactions of
50, 30 and 40, one expense of 20, all on 2025-03-10). -/
def sampleStore : Store where
  barbers := [⟨1, "A", some "percent", some 20⟩, ⟨2, "B", none, none⟩]
  services := []
  transactions :=
    [⟨1, 1, 1, 50, some "cash", ⟨2025, 3, 10, 12, 0, 0⟩, none⟩,
     ⟨2, 1, 1, 30, some "cash", ⟨2025, 3, 10, 13, 0, 0⟩, none⟩,
     ⟨3, 2, 1, 40, some "pix", ⟨2025, 3, 10, 14, 0, 0⟩, none⟩]
  expenses := [⟨1, "rent", some "other", 20, ⟨2025, 3, 10, 9, 0, 0⟩⟩]

/-! ### C4: transaction creation with omitted price and missing service -/

/-- **C4.** Creating a transaction with the price omitted, when the
referenced `service_id` matches no stored service, is rejected with the
`NotFound` error, and no transaction row is inserted (the call produces no
updated store). -/
theorem create_transaction_missing_service_rejected (s : Store)
    (t : TransactionIn) (now : DateTime) (hp : t.price = none)
    (hs : ∀ svc ∈ s.services, svc.id ≠ t.service_id) :
    create_transaction s t now =
      Except.error (.notFound "service_id not found and no price provided") := by
  have hfind : s.services.find? (fun svc => svc.id == t.service_id) = none := by
    rw [List.find?_eq_none]
    intro svc hsvc
    simpa using hs svc hsvc
  simp [create_transaction, hp, hfind, Except.bind]

/-- Witness for C4: a store with no services, a request with no price. -/
theorem create_transaction_missing_service_rejected_witness :
    create_transaction ⟨[], [], [], []⟩ ⟨1, 99, none, some "cash", none, none⟩
        ⟨2025, 1, 1, 0, 0, 0⟩ =
      Except.error (.notFound "service_id not found and no price provided") :=
  create_transaction_missing_service_rejected _ _ _ rfl (by simp)

/-! ### C10: explicit price never consults the services table -/

/-- **C10.** Creating a transaction with an explicit price succeeds for
every store, inserting exactly the given row — the result is this fixed
success whatever the services table holds (in particular when no service
carries `service_id`), so the services table is never consulted and the
`NotFound` rejection can only arise on the omitted-price path. -/
theorem create_transaction_explicit_price (s : Store) (t : TransactionIn)
    (now : DateTime) (p : ℚ) (hp : t.price = some p) :
    create_transaction s t now =
      Except.ok
        ({ s with transactions := s.transactions ++
            [{ id := s.transactions.length + 1, barber_id := t.barber_id
               service_id := t.service_id, price := p
               payment_method := t.payment_method
               timestamp := t.timestamp.getD now, note := t.note }] },
         s.transactions.length + 1) := by
  simp [create_transaction, hp, Except.bind]

/-- Witness for C10: an explicit price of 35 with a dangling `service_id`
in a store with no services at all. -/
theorem create_transaction_explicit_price_witness :
    create_transaction ⟨[], [], [], []⟩ ⟨1, 99, some 35, some "cash", none, none⟩
        ⟨2025, 1, 1, 0, 0, 0⟩ =
      Except.ok
        ({ barbers := [], services := [], transactions :=
            [{ id := 1, barber_id := 1, service_id := 99, price := 35
               payment_method := some "cash"
               timestamp := ⟨2025, 1, 1, 0, 0, 0⟩, note := none }], expenses := [] }, 1) :=
  create_transaction_explicit_price _ _ _ 35 rfl

/-! ### C9: the report is a pure function of the stored data -/

/-- **C9.** `get_report` is a deterministic pure function of the stored
data it reads (the barbers, transactions and expenses tables) and of its
arguments: any two stores agreeing on those tables — in particular, the
identical store queried twice — yield identical reports for identical
period kind and reference date. -/
theorem get_report_deterministic (s1 s2 : Store) (period : String)
    (reference_date : Date) (hb : s1.barbers = s2.barbers)
    (ht : s1.transactions = s2.transactions) (he : s1.expenses = s2.expenses) :
    get_report s1 period reference_date = get_report s2 period reference_date := by
  simp only [get_report, load_transactions_for_period, load_expenses_for_period,
    hb, ht, he]

/-- Witness for C9: the sample store versus the sample store with a changed
services table. -/
theorem get_report_deterministic_witness :
    get_report sampleStore "daily" ⟨2025, 3, 10⟩ =
      get_report { sampleStore with services := [⟨7, "corte", 30⟩] } "daily"
        ⟨2025, 3, 10⟩ :=
  get_report_deterministic _ _ _ _ rfl rfl rfl

/-! ### C5: unrecognized period kind -/

/-- The classifier rejects every period kind other than the three known
ones, with the single `InvalidArgument` error. -/
theorem in_period_invalid (ts : DateTime) (period : String) (reference_date : Date)
    (h1 : period ≠ "daily") (h2 : period ≠ "weekly") (h3 : period ≠ "monthly") :
    in_period ts period reference_date =
      Except.error (.invalidArgument "period must be daily, weekly or monthly") := by
  simp [in_period, h1, h2, h3]

/-- Counterexample to C5 as stated: on a store whose transactions and
expenses tables are both empty, a report request with the invalid period
kind `yearly` succeeds with a full (empty) report instead of failing — the
classifier is only consulted once per stored row, so it is never reached. -/
theorem get_report_invalid_period_empty_store_ok :
    get_report ⟨[], [], [], []⟩ "yearly" ⟨2025, 1, 1⟩ =
      Except.ok
        { period := "yearly", reference_date := ⟨2025, 1, 1⟩
          counts_by_barber := [], totals_by_barber := [], totals_by_service := []
          total_revenue := 0, total_expenses := 0, net_profit := 0
          commissions_due := [], transactions := [], expenses := [] } := by
  simp [get_report, load_transactions_for_period, load_expenses_for_period,
    filterTransactions, filterExpenses, calculate_commissions, Except.bind]

/-- **C5 (amended).** For any period kind other than `daily`, `weekly` or
`monthly`, `in_period` fails with the `InvalidArgument` error; `get_report`
fails with that same error, with no partial report, whenever the store
holds at least one transaction or expense row (the classifier runs once per
stored row, so on a store with both tables empty no error is raised and an
empty report is returned instead). -/
theorem invalid_period_error_propagation (ts : DateTime) (period : String)
    (reference_date : Date) (s : Store) (h1 : period ≠ "daily")
    (h2 : period ≠ "weekly") (h3 : period ≠ "monthly") :
    in_period ts period reference_date =
      Except.error (.invalidArgument "period must be daily, weekly or monthly")
    ∧ (s.transactions ≠ [] ∨ s.expenses ≠ [] →
        get_report s period reference_date =
          Except.error (.invalidArgument "period must be daily, weekly or monthly")) := by
  refine ⟨in_period_invalid ts period reference_date h1 h2 h3, fun hne => ?_⟩
  cases htx : s.transactions with
  | cons t rest =>
    simp [get_report, load_transactions_for_period, htx, filterTransactions,
      in_period_invalid _ _ _ h1 h2 h3, Except.bind]
  | nil =>
    have hex : s.expenses ≠ [] := by
      rcases hne with h | h
      · exact absurd htx h
      · exact h
    cases hexx : s.expenses with
    | nil => exact absurd hexx hex
    | cons e rest =>
      simp [get_report, load_transactions_for_period, load_expenses_for_period,
        htx, hexx, filterTransactions, filterExpenses,
        in_period_invalid _ _ _ h1 h2 h3, Except.bind]

/-- Witness for the amended C5: the period kind `yearly` against the sample
store, which has transaction and expense rows. -/
theorem invalid_period_error_propagation_witness :
    in_period ⟨2025, 3, 10, 12, 0, 0⟩ "yearly" ⟨2025, 3, 10⟩ =
      Except.error (.invalidArgument "period must be daily, weekly or monthly")
    ∧ (sampleStore.transactions ≠ [] ∨ sampleStore.expenses ≠ [] →
        get_report sampleStore "yearly" ⟨2025, 3, 10⟩ =
          Except.error (.invalidArgument "period must be daily, weekly or monthly")) :=
  invalid_period_error_propagation _ _ _ _ (by decide) (by decide) (by decide)

/-! ### C8: the Period Loader is an order-preserving filter -/

/-- For the three recognized period kinds, the classifier never fails. -/
theorem in_period_total (period : String) (reference_date : Date)
    (h : period = "daily" ∨ period = "weekly" ∨ period = "monthly")
    (ts : DateTime) : ∃ b, in_period ts period reference_date = Except.ok b := by
  rcases h with h | h | h <;> subst h <;> exact ⟨_, rfl⟩

/-- When the classifier is total, the transaction loader loop is exactly
`List.filter` by the classifier. -/
theorem filterTransactions_eq_filter (period : String) (reference_date : Date)
    (htot : ∀ ts : DateTime, ∃ b, in_period ts period reference_date = Except.ok b) :
    ∀ l : List Transaction,
      filterTransactions period reference_date l =
        Except.ok (l.filter
          (fun t => decide (in_period t.timestamp period reference_date = Except.ok true)))
  | [] => by simp [filterTransactions]
  | t :: ts => by
    obtain ⟨b, hb⟩ := htot t.timestamp
    have ih := filterTransactions_eq_filter period reference_date htot ts
    cases b <;> simp [filterTransactions, hb, ih, Except.bind, List.filter_cons]

/-- When the classifier is total, the expense loader loop is exactly
`List.filter` by the classifier. -/
theorem filterExpenses_eq_filter (period : String) (reference_date : Date)
    (htot : ∀ ts : DateTime, ∃ b, in_period ts period reference_date = Except.ok b) :
    ∀ l : List Expense,
      filterExpenses period reference_date l =
        Except.ok (l.filter
          (fun e => decide (in_period e.timestamp period reference_date = Except.ok true)))
  | [] => by simp [filterExpenses]
  | e :: es => by
    obtain ⟨b, hb⟩ := htot e.timestamp
    have ih := filterExpenses_eq_filter period reference_date htot es
    cases b <;> simp [filterExpenses, hb, ih, Except.bind, List.filter_cons]

/-- **C8.** For every store, recognized period kind and reference date, the
Period Loader's result sequence — for transactions and likewise for
expenses — is exactly the subsequence of the full table scan on which the
Period Classifier returns true, in the store's enumeration order
(`List.filter`, which is stable and does not re-sort). -/
theorem loaders_filter_in_order (s : Store) (period : String)
    (reference_date : Date)
    (h : period = "daily" ∨ period = "weekly" ∨ period = "monthly") :
    load_transactions_for_period s period reference_date =
      Except.ok (s.transactions.filter
        (fun t => decide (in_period t.timestamp period reference_date = Except.ok true)))
    ∧ load_expenses_for_period s period reference_date =
      Except.ok (s.expenses.filter
        (fun e => decide (in_period e.timestamp period reference_date = Except.ok true))) :=
  ⟨filterTransactions_eq_filter period reference_date
      (in_period_total period reference_date h) s.transactions,
   filterExpenses_eq_filter period reference_date
      (in_period_total period reference_date h) s.expenses⟩

/-- Witness for C8: the sample store under a daily report for 2025-03-10. -/
theorem loaders_filter_in_order_witness :
    load_transactions_for_period sampleStore "daily" ⟨2025, 3, 10⟩ =
      Except.ok (sampleStore.transactions.filter
        (fun t => decide (in_period t.timestamp "daily" ⟨2025, 3, 10⟩ = Except.ok true)))
    ∧ load_expenses_for_period sampleStore "daily" ⟨2025, 3, 10⟩ =
      Except.ok (sampleStore.expenses.filter
        (fun e => decide (in_period e.timestamp "daily" ⟨2025, 3, 10⟩ = Except.ok true))) :=
  loaders_filter_in_order sampleStore "daily" ⟨2025, 3, 10⟩ (Or.inl rfl)

/-! ### C6: an empty period yields an empty report, not an error -/

/-- If the classifier answers `false` on every stored transaction, the
loader loop returns the empty list. -/
theorem filterTransactions_all_false (period : String) (reference_date : Date) :
    ∀ l : List Transaction,
      (∀ t ∈ l, in_period t.timestamp period reference_date = Except.ok false) →
      filterTransactions period reference_date l = Except.ok []
  | [], _ => by simp [filterTransactions]
  | t :: ts, h => by
    have hb := h t (List.mem_cons_self t ts)
    have ih := filterTransactions_all_false period reference_date ts
      (fun u hu => h u (List.mem_cons_of_mem _ hu))
    simp [filterTransactions, hb, ih, Except.bind]

/-- If the classifier answers `false` on every stored expense, the loader
loop returns the empty list. -/
theorem filterExpenses_all_false (period : String) (reference_date : Date) :
    ∀ l : List Expense,
      (∀ e ∈ l, in_period e.timestamp period reference_date = Except.ok false) →
      filterExpenses period reference_date l = Except.ok []
  | [], _ => by simp [filterExpenses]
  | e :: es, h => by
    have hb := h e (List.mem_cons_self e es)
    have ih := filterExpenses_all_false period reference_date es
      (fun u hu => h u (List.mem_cons_of_mem _ hu))
    simp [filterExpenses, hb, ih, Except.bind]

/-- **C6.** When no stored transaction and no stored expense matches the
period, `get_report` succeeds — it does not fail — and returns the report
in which all four mappings are empty, the three scalar totals are zero, and
the transaction and expense sequences are empty. -/
theorem get_report_empty_period (s : Store) (period : String)
    (reference_date : Date)
    (htx : ∀ t ∈ s.transactions,
      in_period t.timestamp period reference_date = Except.ok false)
    (hex : ∀ e ∈ s.expenses,
      in_period e.timestamp period reference_date = Except.ok false) :
    get_report s period reference_date =
      Except.ok
        { period := period, reference_date := reference_date
          counts_by_barber := [], totals_by_barber := [], totals_by_service := []
          total_revenue := 0, total_expenses := 0, net_profit := 0
          commissions_due := [], transactions := [], expenses := [] } := by
  have h1 := filterTransactions_all_false period reference_date s.transactions htx
  have h2 := filterExpenses_all_false period reference_date s.expenses hex
  simp [get_report, load_transactions_for_period, load_expenses_for_period,
    h1, h2, calculate_commissions, Except.bind]

/-- Witness for C6: a daily report for 2030-01-01 against the sample store,
whose rows are all dated 2025-03-10. -/
theorem get_report_empty_period_witness :
    get_report sampleStore "daily" ⟨2030, 1, 1⟩ =
      Except.ok
        { period := "daily", reference_date := ⟨2030, 1, 1⟩
          counts_by_barber := [], totals_by_barber := [], totals_by_service := []
          total_revenue := 0, total_expenses := 0, net_profit := 0
          commissions_due := [], transactions := [], expenses := [] } :=
  get_report_empty_period sampleStore "daily" ⟨2030, 1, 1⟩
    (by
      intro t ht
      simp only [sampleStore, List.mem_cons, List.not_mem_nil, or_false] at ht
      rcases ht with rfl | rfl | rfl <;> decide)
    (by
      intro e he
      simp only [sampleStore, List.mem_cons, List.not_mem_nil, or_false] at he
      rcases he with rfl
      decide)

/-! ### C1: commission policy resolution precedence -/

/-- The three-branch resolution in the source loop computes exactly the
spec's tagged-policy amount: percent, then fixed, then default fallback. -/
theorem commissionFor_eq_spec (barbers : List Barber) (dp : ℚ) (t : Transaction) :
    commissionFor barbers dp t =
      specCommissionAmount (specPolicyOf barbers t.barber_id) t.price dp := by
  rcases hset : barberSetting barbers t.barber_id with ⟨k, v⟩
  cases k with
  | none => simp [commissionFor, specPolicyOf, specCommissionAmount, hset]
  | some kind =>
    cases v with
    | none => simp [commissionFor, specPolicyOf, specCommissionAmount, hset]
    | some q =>
      by_cases h1 : kind = "percent"
      · simp [commissionFor, specPolicyOf, specCommissionAmount, hset, h1]
      · by_cases h2 : kind = "fixed"
        · simp [commissionFor, specPolicyOf, specCommissionAmount, hset, h1, h2]
        · simp [commissionFor, specPolicyOf, specCommissionAmount, hset, h1, h2]

/-- **C1.** `calculate_commissions` resolves every transaction by the
percent-then-fixed-then-fallback precedence: it accumulates, per owning
barber, the spec's tagged-policy amount — `price * (value / 100)` for a
percent policy with a value, the flat `value` once per transaction for a
fixed policy with a value, and `price * (default_percent / 100)` otherwise.
In particular a barber with a fixed policy of value 10 appearing in three
transactions accrues exactly 30, whatever the prices. -/
theorem calculate_commissions_precedence :
    (∀ (barbers : List Barber) (dp : ℚ) (txs : List Transaction),
      calculate_commissions barbers txs dp =
        txs.foldl (fun m t => addTo m t.barber_id
          (specCommissionAmount (specPolicyOf barbers t.barber_id) t.price dp)) [])
    ∧ calculate_commissions [⟨1, "A", some "fixed", some 10⟩]
        [⟨1, 1, 1, 50, some "cash", ⟨2025, 3, 10, 12, 0, 0⟩, none⟩,
         ⟨2, 1, 2, 30, some "cash", ⟨2025, 3, 10, 13, 0, 0⟩, none⟩,
         ⟨3, 1, 1, 40, some "pix", ⟨2025, 3, 10, 14, 0, 0⟩, none⟩] 30
      = [(1, 30)] := by
  constructor
  · intro barbers dp txs
    have hstep : (fun (m : List (ℕ × ℚ)) (t : Transaction) =>
        addTo m t.barber_id (commissionFor barbers dp t)) =
        (fun m t => addTo m t.barber_id
          (specCommissionAmount (specPolicyOf barbers t.barber_id) t.price dp)) := by
      funext m t
      rw [commissionFor_eq_spec]
    rw [calculate_commissions, hstep]
  · have hfp : ("fixed" : String) ≠ "percent" := by decide
    norm_num [calculate_commissions, commissionFor, barberSetting, addTo, hfp]

/-! ### C7: commission keys and per-barber accumulation -/

/-- Looking up the updated key after `addTo`. -/
theorem lookup_addTo_self (m : List (ℕ × ℚ)) (k : ℕ) (v : ℚ) :
    (addTo m k v).lookup k = some ((m.lookup k).getD 0 + v) := by
  induction m with
  | nil => simp [addTo, List.lookup]
  | cons hd tl ih =>
    obtain ⟨a, b⟩ := hd
    by_cases h : a = k
    · subst h
      simp [addTo, List.lookup]
    · have hka : (k == a) = false := by simp [Ne.symm h]
      simp [addTo, List.lookup, h, hka, ih]

/-- `addTo` leaves every other key's lookup unchanged. -/
theorem lookup_addTo_ne (m : List (ℕ × ℚ)) (k : ℕ) (v : ℚ) (k' : ℕ)
    (h : k' ≠ k) : (addTo m k v).lookup k' = m.lookup k' := by
  induction m with
  | nil =>
    have hk : (k' == k) = false := by simp [h]
    simp [addTo, List.lookup, hk]
  | cons hd tl ih =>
    obtain ⟨a, b⟩ := hd
    by_cases ha : a = k
    · subst ha
      have hk : (k' == a) = false := by simp [h]
      simp [addTo, List.lookup, hk]
    · cases hka : (k' == a) with
      | true => simp [addTo, ha, List.lookup, hka]
      | false => simp [addTo, ha, List.lookup, hka, ih]

/-- A key is present after `addTo` iff it is the added key or was present. -/
theorem mem_keys_addTo (m : List (ℕ × ℚ)) (k : ℕ) (v : ℚ) (k' : ℕ) :
    k' ∈ (addTo m k v).map Prod.fst ↔ k' = k ∨ k' ∈ m.map Prod.fst := by
  induction m with
  | nil => simp [addTo]
  | cons hd tl ih =>
    obtain ⟨a, b⟩ := hd
    by_cases h : a = k
    · subst h
      simp [addTo]
    · simp [addTo, h, ih]
      tauto

/-- Accumulator-generalized description of the commission fold: the lookup
of a barber id is its starting value plus the sum of that barber's
per-transaction contributions, and is absent iff it started absent and no
transaction mentions the barber. -/
theorem calc_comm_aux (barbers : List Barber) (dp : ℚ) :
    ∀ (txs : List Transaction) (m : List (ℕ × ℚ)) (bid : ℕ),
      (txs.foldl (fun m t => addTo m t.barber_id (commissionFor barbers dp t)) m).lookup bid =
        if ((m.lookup bid).isSome || txs.any (fun t => t.barber_id == bid)) = true
        then some ((m.lookup bid).getD 0 +
          ((txs.filter (fun t => t.barber_id == bid)).map (commissionFor barbers dp)).sum)
        else none
  | [], m, bid => by
    cases hm : m.lookup bid <;> simp [hm]
  | t :: ts, m, bid => by
    have ih := calc_comm_aux barbers dp ts
      (addTo m t.barber_id (commissionFor barbers dp t)) bid
    by_cases hb : t.barber_id = bid
    · subst hb
      rw [List.foldl_cons, ih, lookup_addTo_self]
      simp [List.filter_cons, add_assoc]
    · have hb' : bid ≠ t.barber_id := fun hh => hb hh.symm
      have hbeq : (t.barber_id == bid) = false := by simp [hb]
      rw [List.foldl_cons, ih, lookup_addTo_ne _ _ _ _ hb']
      simp only [List.any_cons, List.filter_cons]
      rw [hbeq, Bool.false_or]
      simp

/-- Key membership in the commission fold, accumulator-generalized. -/
theorem calc_comm_keys_aux (barbers : List Barber) (dp : ℚ) :
    ∀ (txs : List Transaction) (m : List (ℕ × ℚ)) (bid : ℕ),
      (bid ∈ ((txs.foldl (fun m t => addTo m t.barber_id (commissionFor barbers dp t)) m).map Prod.fst)
        ↔ bid ∈ m.map Prod.fst ∨ ∃ t ∈ txs, t.barber_id = bid)
  | [], m, bid => by simp
  | t :: ts, m, bid => by
    have ih := calc_comm_keys_aux barbers dp ts
      (addTo m t.barber_id (commissionFor barbers dp t)) bid
    rw [List.foldl_cons, ih, mem_keys_addTo]
    simp only [List.mem_cons]
    constructor
    · rintro ((h | h) | ⟨u, hu, hbu⟩)
      · exact Or.inr ⟨t, Or.inl rfl, h.symm⟩
      · exact Or.inl h
      · exact Or.inr ⟨u, Or.inr hu, hbu⟩
    · rintro (h | ⟨u, (rfl | hu), hbu⟩)
      · exact Or.inl (Or.inr h)
      · exact Or.inl (Or.inl hbu.symm)
      · exact Or.inr ⟨u, hu, hbu⟩

/-- **C7.** A barber id is a key of the mapping `calculate_commissions`
returns iff some transaction in the list is attributed to that barber — a
barber with no transaction is absent, not present with a zero entry — and
each present barber's value is the sum of the per-transaction commission
amounts of that barber's transactions. -/
theorem calculate_commissions_keys_and_sums (barbers : List Barber) (dp : ℚ)
    (txs : List Transaction) (bid : ℕ) :
    (bid ∈ (calculate_commissions barbers txs dp).map Prod.fst
      ↔ ∃ t ∈ txs, t.barber_id = bid)
    ∧ (calculate_commissions barbers txs dp).lookup bid =
        (if txs.any (fun t => t.barber_id == bid)
         then some (((txs.filter (fun t => t.barber_id == bid)).map
           (commissionFor barbers dp)).sum)
         else none) := by
  constructor
  · have h := calc_comm_keys_aux barbers dp txs [] bid
    simpa [calculate_commissions] using h
  · have h := calc_comm_aux barbers dp txs [] bid
    simpa [calculate_commissions] using h

/-! ### C2: additivity of the three revenue aggregates -/

/-- `addTo` increases the value sum by exactly the added amount. -/
theorem sumValues_addTo (m : List (ℕ × ℚ)) (k : ℕ) (v : ℚ) :
    sumValues (addTo m k v) = sumValues m + v := by
  induction m with
  | nil => simp [addTo, sumValues]
  | cons hd tl ih =>
    obtain ⟨a, b⟩ := hd
    by_cases h : a = k
    · subst h
      simp [addTo, sumValues]
      ring
    · simp [addTo, sumValues, h] at *
      rw [ih]
      ring

/-- Running revenue after the aggregation loop. -/
theorem agg_revenue (txs : List Transaction)
    (a : List (ℕ × ℕ) × List (ℕ × ℚ) × List (ℕ × ℚ) × ℚ) :
    (txs.foldl aggStep a).2.2.2 = a.2.2.2 + (txs.map Transaction.price).sum := by
  induction txs generalizing a with
  | nil => simp
  | cons t ts ih =>
    rw [List.foldl_cons, ih]
    simp [aggStep]
    ring

/-- Per-barber totals after the aggregation loop sum to the prices seen. -/
theorem agg_barber_sum (txs : List Transaction)
    (a : List (ℕ × ℕ) × List (ℕ × ℚ) × List (ℕ × ℚ) × ℚ) :
    sumValues (txs.foldl aggStep a).2.1 =
      sumValues a.2.1 + (txs.map Transaction.price).sum := by
  induction txs generalizing a with
  | nil => simp
  | cons t ts ih =>
    rw [List.foldl_cons, ih]
    simp [aggStep, sumValues_addTo]
    ring

/-- Per-service totals after the aggregation loop sum to the prices seen. -/
theorem agg_service_sum (txs : List Transaction)
    (a : List (ℕ × ℕ) × List (ℕ × ℚ) × List (ℕ × ℚ) × ℚ) :
    sumValues (txs.foldl aggStep a).2.2.1 =
      sumValues a.2.2.1 + (txs.map Transaction.price).sum := by
  induction txs generalizing a with
  | nil => simp
  | cons t ts ih =>
    rw [List.foldl_cons, ih]
    simp [aggStep, sumValues_addTo]
    ring

/-- **C2.** Every report `get_report` builds satisfies the additivity law:
`total_revenue` equals the sum of the `totals_by_barber` values and equals
the sum of the `totals_by_service` values — each loaded transaction
contributes its price exactly once to each of the three aggregates. -/
theorem report_additivity (s : Store) (period : String) (reference_date : Date)
    (r : Report) (h : get_report s period reference_date = Except.ok r) :
    r.total_revenue = sumValues r.totals_by_barber
    ∧ r.total_revenue = sumValues r.totals_by_service := by
  cases htx : load_transactions_for_period s period reference_date with
  | error e => simp [get_report, htx] at h
  | ok txs =>
    cases hex : load_expenses_for_period s period reference_date with
    | error e => simp [get_report, htx, hex] at h
    | ok exps =>
      simp only [get_report, htx, hex, okBind, pureEqOk, Except.ok.injEq] at h
      subst h
      refine ⟨?_, ?_⟩
      · rw [agg_revenue, agg_barber_sum]
        simp [sumValues]
      · rw [agg_revenue, agg_service_sum]
        simp [sumValues]

/-- The daily report of 2025-03-10 over the sample store (the worked
scenario of spec §8). -/
def sampleReport : Report where
  period := "daily"
  reference_date := ⟨2025, 3, 10⟩
  counts_by_barber := [(1, 2), (2, 1)]
  totals_by_barber := [(1, 80), (2, 40)]
  totals_by_service := [(1, 120)]
  total_revenue := 120
  total_expenses := 20
  net_profit := 100
  commissions_due := [(1, 16), (2, 12)]
  transactions := sampleStore.transactions
  expenses := sampleStore.expenses

/-- `get_report` on the sample store produces exactly the sample report. -/
theorem get_report_sampleStore :
    get_report sampleStore "daily" ⟨2025, 3, 10⟩ = Except.ok sampleReport := by
  norm_num [get_report, load_transactions_for_period, load_expenses_for_period,
    filterTransactions, filterExpenses, in_period, DateTime.date, sampleStore,
    sampleReport, calculate_commissions, commissionFor, barberSetting, aggStep,
    addTo]

/-- Witness for C2: the sample report. -/
theorem report_additivity_witness :
    sampleReport.total_revenue = sumValues sampleReport.totals_by_barber
    ∧ sampleReport.total_revenue = sumValues sampleReport.totals_by_service :=
  report_additivity sampleStore "daily" ⟨2025, 3, 10⟩ sampleReport
    get_report_sampleStore

/-! ### C3: weekly matching is same-ISO-week matching

The `weekly` branch of the classifier compares `isocalendar()[:2]` pairs.
The lemmas below prove that two valid dates have equal (ISO year, ISO week)
pairs exactly when they share the same week-starting Monday, which is the
ISO-8601 notion of falling in the same week (weeks run Monday to Sunday;
`isoweek1monday` anchors week 1 so that it contains the year's first
Thursday — see `week1_thursday_in_year`). -/

/-- January 1 of year `y` has ordinal `daysBeforeYear y + 1`. -/
theorem ymd2ord_jan1 (y : ℕ) : ymd2ord y 1 1 = daysBeforeYear y + 1 := by
  simp [ymd2ord, daysBeforeMonth]

/-- The week-1 Monday is Monday-aligned (ordinal 1 mod 7) and lies within
three days of January 1. -/
theorem w1m_spec (y : ℕ) :
    isoweek1monday y % 7 = 1 ∧
    (daysBeforeYear y : ℤ) - 2 ≤ isoweek1monday y ∧
    isoweek1monday y ≤ (daysBeforeYear y : ℤ) + 4 := by
  simp only [isoweek1monday, ymd2ord_jan1]
  split_ifs with h <;> push_cast <;> omega

/-- The first Thursday of year `y` (a day in the year's first seven days)
belongs to ISO week 1: the Thursday of the week starting at
`isoweek1monday y` falls inside year `y`'s opening week. -/
theorem week1_thursday_in_year (y : ℕ) :
    (daysBeforeYear y : ℤ) + 1 ≤ isoweek1monday y + 3 ∧
    isoweek1monday y + 3 ≤ (daysBeforeYear y : ℤ) + 7 := by
  have h := w1m_spec y
  omega

set_option maxHeartbeats 1600000 in
/-- One Gregorian year advances `daysBeforeYear` by 365 plus the leap day. -/
theorem dBY_step (y : ℕ) (hy : 1 ≤ y) :
    daysBeforeYear (y + 1) =
      daysBeforeYear y + 365 + (if isLeap y then 1 else 0) := by
  unfold daysBeforeYear isLeap
  split_ifs with h
  · simp only [Bool.and_eq_true, beq_iff_eq, Bool.or_eq_true, bne_iff_ne,
      ne_eq] at h
    omega
  · simp only [Bool.and_eq_true, beq_iff_eq, Bool.or_eq_true, bne_iff_ne,
      ne_eq, not_and, not_or, not_not] at h
    omega

/-- `daysBeforeYear` grows by 365 or 366 per year. -/
theorem dBY_bounds (y : ℕ) (hy : 1 ≤ y) :
    daysBeforeYear y + 365 ≤ daysBeforeYear (y + 1) ∧
    daysBeforeYear (y + 1) ≤ daysBeforeYear y + 366 := by
  have h := dBY_step y hy
  split_ifs at h <;> omega

/-- A valid date's ordinal lies between January 1 of its year and
December 31 of its year. -/
theorem valid_ord_bounds (y m d : ℕ) (h : validYmd y m d) :
    daysBeforeYear y + 1 ≤ ymd2ord y m d ∧
    ymd2ord y m d ≤ daysBeforeYear (y + 1) := by
  obtain ⟨hy, hm1, hm2, hd1, hd2⟩ := h
  have hstep := dBY_step y hy
  unfold ymd2ord
  constructor
  · omega
  · rw [hstep]
    interval_cases m <;> simp only [daysBeforeMonth, daysInMonth] at hd2 ⊢ <;>
      split_ifs at hd2 ⊢ <;> omega

/-- Consecutive week-1 Mondays are at least 359 days apart. -/
theorem w1m_gap (y : ℕ) (hy : 1 ≤ y) :
    isoweek1monday y + 359 ≤ isoweek1monday (y + 1) := by
  have h1 := w1m_spec y
  have h2 := w1m_spec (y + 1)
  have h3 := dBY_bounds y hy
  omega

/-- `isoweek1monday` is monotone from year 1 on. -/
theorem w1m_mono (a b : ℕ) (ha : 1 ≤ a) (hab : a ≤ b) :
    isoweek1monday a ≤ isoweek1monday b := by
  induction b, hab using Nat.le_induction with
  | base => exact le_refl _
  | succ n hn ih =>
    have := w1m_gap n (le_trans ha hn)
    omega

/-- Soundness of `isocalendar`: for a valid date it returns a year label
`Y ≥ 1` and a week number `W ≥ 1` such that the Monday on or before the
date is day `isoweek1monday Y + 7 * (W - 1)`, a Monday lying inside year
`Y`'s ISO range `[isoweek1monday Y, isoweek1monday (Y + 1))`. -/
theorem iso_sound (y m d : ℕ) (h : validYmd y m d) :
    ∃ (Y : ℕ) (W : ℤ), 1 ≤ Y ∧ (isocalendar y m d).1 = (Y : ℤ) ∧
      (isocalendar y m d).2.1 = W ∧ 1 ≤ W ∧
      mondayOnOrBefore (ymd2ord y m d) = isoweek1monday Y + 7 * (W - 1) ∧
      isoweek1monday Y ≤ mondayOnOrBefore (ymd2ord y m d) ∧
      mondayOnOrBefore (ymd2ord y m d) < isoweek1monday (Y + 1) := by
  have hy1 : 1 ≤ y := h.1
  have hb := valid_ord_bounds y m d h
  have hs0 := w1m_spec y
  have hs1 := w1m_spec (y + 1)
  simp only [isocalendar, mondayOnOrBefore]
  split_ifs with hneg hbig
  · -- `week < 0`: the date belongs to the previous year's last ISO week.
    have hy2 : 2 ≤ y := by
      by_contra hcon
      have hy1' : y = 1 := by omega
      subst hy1'
      have hone : isoweek1monday 1 = 1 := by decide
      have hone' : daysBeforeYear 1 = 0 := by decide
      omega
    have hsm := w1m_spec (y - 1)
    have hbm := dBY_bounds (y - 1) (by omega)
    have hyy : y - 1 + 1 = y := by omega
    rw [hyy] at hbm
    refine ⟨y - 1, (((ymd2ord y m d : ℤ)) - isoweek1monday (y - 1)) / 7 + 1,
      by omega, ?_, rfl, ?_, ?_, ?_, ?_⟩
    · show (y : ℤ) - 1 = ((y - 1 : ℕ) : ℤ)
      omega
    · omega
    · omega
    · omega
    · rw [hyy]
      omega
  · -- `week ≥ 52` and the date reaches next year's week-1 Monday.
    have hgap := w1m_gap (y + 1) (by omega)
    refine ⟨y + 1, 1, by omega, ?_, rfl, by omega, ?_, ?_, ?_⟩
    · show (y : ℤ) + 1 = ((y + 1 : ℕ) : ℤ)
      omega
    · omega
    · omega
    · omega
  · -- ordinary branch: the date stays in its own year's ISO numbering.
    have hgap := w1m_gap y hy1
    refine ⟨y, ((ymd2ord y m d : ℤ) - isoweek1monday y) / 7 + 1,
      hy1, rfl, rfl, ?_, ?_, ?_, ?_⟩
    · omega
    · omega
    · omega
    · omega

/-- Equality of `isocalendar()[:2]` pairs on valid dates is exactly the
same-ISO-week relation (sharing the week's Monday). -/
theorem iso_pair_eq_iff (a b : Date)
    (ha : validYmd a.year a.month a.day) (hb : validYmd b.year b.month b.day) :
    (a.iso.1 = b.iso.1 ∧ a.iso.2.1 = b.iso.2.1) ↔ sameISOWeek a b := by
  obtain ⟨Y1, W1, hY1, e1, e2, hW1, hm1, hlo1, hhi1⟩ :=
    iso_sound a.year a.month a.day ha
  obtain ⟨Y2, W2, hY2, f1, f2, hW2, hm2, hlo2, hhi2⟩ :=
    iso_sound b.year b.month b.day hb
  unfold Date.iso sameISOWeek
  rw [e1, e2, f1, f2]
  constructor
  · rintro ⟨hy, hw⟩
    have hyy : Y1 = Y2 := by exact_mod_cast hy
    subst hyy
    subst hw
    omega
  · intro hmon
    have hYeq : Y1 = Y2 := by
      rcases lt_trichotomy Y1 Y2 with hlt | heq | hgt
      · exfalso
        have := w1m_mono (Y1 + 1) Y2 (by omega) (by omega)
        omega
      · exact heq
      · exfalso
        have := w1m_mono (Y2 + 1) Y1 (by omega) (by omega)
        omega
    subst hYeq
    have hWeq : W1 = W2 := by omega
    exact ⟨rfl, by omega⟩

/-- **C3.** For valid timestamps and reference dates, `in_period` with the
`weekly` kind answers true exactly when the two dates fall in the same
ISO-8601 week — the week starting on the shared Monday, under the ISO
labelling whose week 1 contains the year's first Thursday — including
across month and year boundaries (e.g. 2024-12-31 and 2025-01-01, which
share ISO week 2025-W01). -/
theorem in_period_weekly_same_iso_week (ts : DateTime) (reference_date : Date)
    (h1 : validYmd ts.year ts.month ts.day)
    (h2 : validYmd reference_date.year reference_date.month reference_date.day) :
    in_period ts "weekly" reference_date =
      Except.ok (decide (sameISOWeek ts.date reference_date)) := by
  have hiff := iso_pair_eq_iff ts.date reference_date h1 h2
  unfold in_period
  rw [if_neg (by decide), if_pos rfl]
  exact congrArg Except.ok (decide_eq_decide.mpr hiff)

/-- Witness for C3: 2024-12-31 (at 23:59) and 2025-01-01 — a year boundary
inside a shared ISO week. -/
theorem in_period_weekly_same_iso_week_witness :
    in_period ⟨2024, 12, 31, 23, 59, 0⟩ "weekly" ⟨2025, 1, 1⟩ =
      Except.ok
        (decide (sameISOWeek (DateTime.date ⟨2024, 12, 31, 23, 59, 0⟩) ⟨2025, 1, 1⟩)) :=
  in_period_weekly_same_iso_week ⟨2024, 12, 31, 23, 59, 0⟩ ⟨2025, 1, 1⟩
    (by decide) (by decide)

end Barbearia
